import Mathlib

/-!
Verification of the serpent-tools core utilities
(`serpentTools/utils/core.py`) and the log-capture test mixin
(`serpentTools/tests/utils.py`).

Python strings are embedded as lists of code points (`List Nat`,
ASCII range for all inputs of interest); numeric dtypes are embedded
as an explicit conversion function `List Nat → Option α`, `none`
marking a Python conversion error (ValueError/TypeError).
-/

namespace SerpentTools

/-! ### Character primitives (ASCII fragment of the Python `str` methods) -/

/-- Code point of the underscore character. -/
def underscore : Nat := 95

/-- Python `str.isspace` / the default `str.split` separators,
restricted to ASCII: space, tab, newline, carriage return,
form feed, vertical tab. -/
def isSpaceChar (c : Nat) : Bool :=
  c = 32 || c = 9 || c = 10 || c = 13 || c = 12 || c = 11

/-- Python `str.isupper` on a one-character string, ASCII fragment. -/
def isUpperChar (c : Nat) : Bool := decide (65 ≤ c ∧ c ≤ 90)

/-- Python `str.upper` on one character, ASCII fragment. -/
def pyUpperChar (c : Nat) : Nat := if 97 ≤ c ∧ c ≤ 122 then c - 32 else c

/-- Python `str.lower` on one character, ASCII fragment. -/
def pyLowerChar (c : Nat) : Nat := if 65 ≤ c ∧ c ≤ 90 then c + 32 else c

/-- Code points of a Lean string literal, for concrete test inputs. -/
def strCodes (s : String) : List Nat := s.data.map Char.toNat

/-! ### `str.split()` with no argument: split on whitespace runs,
discarding empty tokens. -/

/-- Worker for `pySplit`: `acc` holds the current token, reversed. -/
def pySplitAux : List Nat → List Nat → List (List Nat)
  | [], acc => if acc.isEmpty then [] else [acc.reverse]
  | c :: rest, acc =>
    if isSpaceChar c then
      if acc.isEmpty then pySplitAux rest []
      else acc.reverse :: pySplitAux rest []
    else pySplitAux rest (c :: acc)

/-- Python `s.split()` (no separator argument). -/
def pySplit (s : List Nat) : List (List Nat) := pySplitAux s []

/-! ### `str2vec` (`serpentTools/utils/core.py`)

The body is `array(s.split(), dtype=dtype)`: numpy converts every
token of the split to `dtype`, raising on the first token that does
not coerce.  `convertTokens` is that elementwise conversion. -/

/-- Elementwise dtype conversion performed by `numpy.array(tokens, dtype)`:
fails (returns `none`) as soon as one token fails to coerce. -/
def convertTokens {α : Type} (conv : List Nat → Option α) :
    List (List Nat) → Option (List α)
  | [] => some []
  | t :: ts =>
    match conv t with
    | none => none
    | some x =>
      match convertTokens conv ts with
      | none => none
      | some xs => some (x :: xs)

/-- `str2vec(s, dtype)` = `array(s.split(), dtype=dtype)`. -/
def str2vec {α : Type} (s : List Nat) (conv : List Nat → Option α) :
    Option (List α) :=
  convertTokens conv (pySplit s)

/-- A concrete dtype for tests: non-empty strings of ASCII digits,
converted to the natural number they denote. -/
def convDigits (t : List Nat) : Option Nat :=
  if t ≠ [] ∧ ∀ c ∈ t, 48 ≤ c ∧ c ≤ 57 then
    some (t.foldl (fun a c => 10 * a + (c - 48)) 0)
  else none

/-! ### `splitValsUncs` (`serpentTools/utils/core.py`)

For a one-dimensional array, `iterable[..., 0::2]` selects the
even-indexed entries and `iterable[..., 1::2]` the odd-indexed ones. -/

/-- The numpy slice `v[0::2]` on a one-dimensional sequence. -/
def sliceEvens {α : Type} : List α → List α
  | [] => []
  | [x] => [x]
  | x :: _ :: rest => x :: sliceEvens rest

/-- The numpy slice `v[1::2]` on a one-dimensional sequence. -/
def sliceOdds {α : Type} : List α → List α
  | [] => []
  | [_] => []
  | _ :: y :: rest => y :: sliceOdds rest

/-- `splitValsUncs(iterable, copy)` on a one-dimensional sequence.
The `copy` flag only controls whether numpy views or fresh buffers are
returned; the element values are identical either way, so in this pure
embedding the flag does not influence the result. -/
def splitValsUncs {α : Type} (v : List α) (copy : Bool) : List α × List α :=
  (sliceEvens v, sliceOdds v)

/-! ### Naming-convention converter (`serpentTools/utils/core.py`) -/

/-- Python `str.capitalize`: first character upper-cased, the rest
lower-cased (ASCII fragment). -/
def pyCapitalize (w : List Nat) : List Nat :=
  match w with
  | [] => []
  | c :: cs => pyUpperChar c :: cs.map pyLowerChar

/-- `convertVariableName(variable)`: split on `'_'`, lower-case every
segment, keep the first as is and capitalize the rest, concatenating
with no separator.  The source's `len(lowerSplits) == 1` early return
coincides with the general branch (the joined tail is empty), and
`str.split('_')` never yields an empty list, so the `[]` case is
unreachable. -/
def convertVariableName (v : List Nat) : List Nat :=
  match (v.splitOn underscore).map (fun seg => seg.map pyLowerChar) with
  | [] => []
  | h :: t => h ++ (t.map pyCapitalize).flatten

/-- `deconvertVariableName(variable)`: scan the characters, prefixing
each upper-case character with an underscore and upper-casing
everything else. -/
def deconvertVariableName (v : List Nat) : List Nat :=
  v.foldl
    (fun out c =>
      if isUpperChar c then out ++ [underscore, c] else out ++ [pyUpperChar c])
    []

/-! ### Log-capture test mixin (`serpentTools/tests/utils.py`)

`LoggerMixin` lives in `src/`, but its collaborators from
`serpentTools.messages` do not.

Modelled from the spec: the process-wide logger (`__logger__`) exposes
an enumerable list of registered handlers together with add-handler and
remove-handler operations; `addHandler` appends a handler to that list
and `removeHandler` removes one occurrence of it; `DictHandler(level)`
constructs a fresh capturing handler holding a mapping from severity
level to the ordered list of messages captured at that level, empty at
construction.  Handlers on the logger are identified by their object
identity, embedded as a `Nat` id. -/

/-- A severity level.  Python uses ints/strings as `logMessages` keys;
levels are embedded as `Nat`. -/
abbrev Level : Type := Nat

/-- Modelled from the spec: the capturing handler
(`serpentTools.messages.DictHandler`, not under `src/`): a minimum
severity level, an object identity, and the level → messages mapping
(an association list with distinct keys, as a Python dict). -/
structure DictHandler where
  level : Level
  hid : Nat
  logMessages : List (Level × List (List Nat))
deriving DecidableEq

/-- Modelled from the spec: the state of the process-wide logger
(`serpentTools.messages.__logger__`, not under `src/`): its list of
registered handler identities. -/
structure LoggerState where
  handlers : List Nat
deriving DecidableEq

/-- Modelled from the spec: `serpentTools.messages.removeHandler`
(not under `src/`): remove one occurrence of the handler from the
logger's handler list (a no-op when absent). -/
def removeHandler (hs : List Nat) (h : Nat) : List Nat := hs.erase h

/-- Modelled from the spec: `serpentTools.messages.addHandler`
(not under `src/`): append the handler to the logger's handler list. -/
def addHandler (hs : List Nat) (h : Nat) : List Nat := hs ++ [h]

/-- The `LoggerMixin` instance state: the remembered handler list
(`self.__old`, initially `[]`) and the capturing handler
(`self.handler`, initially `None`). -/
structure MixinState where
  old : List Nat
  handler : Option DictHandler
deriving DecidableEq

/-- The errors raised by the mixin: `AttributeError` (detach/query
while not attached) and `KeyError` (level absent from the logs,
carrying the sorted list of levels that do have entries). -/
inductive MixinError : Type where
  | attributeError (msg : List Nat)
  | keyError (levels : List Level)
deriving DecidableEq

/-- `LoggerMixin.attach(level)`: construct a fresh `DictHandler`
(id `hid`, empty logs), remember the logger's current handlers,
remove each of them from the logger, and add the capturing handler. -/
def attach (m : MixinState) (lg : LoggerState) (lvl : Level) (hid : Nat) :
    MixinState × LoggerState :=
  let d : DictHandler := { level := lvl, hid := hid, logMessages := [] }
  let old := lg.handlers
  let hs := old.foldl removeHandler lg.handlers
  ({ old := old, handler := some d }, { handlers := addHandler hs d.hid })

/-- `LoggerMixin.detach()`: raise `AttributeError` when not attached;
otherwise remove the capturing handler, re-add every remembered
handler, and clear the remembered state. -/
def detach (m : MixinState) (lg : LoggerState) :
    Except MixinError (MixinState × LoggerState) :=
  match m.handler with
  | none =>
    .error (.attributeError (strCodes "Handler not set. Possibly not attached."))
  | some d =>
    let hs := removeHandler lg.handlers d.hid
    .ok ({ old := [], handler := none },
         { handlers := m.old.foldl addHandler hs })

/-- Insertion into a sorted list of levels, for `sorted(logs.keys())`. -/
def insertSorted (x : Nat) : List Nat → List Nat
  | [] => [x]
  | y :: ys => if x ≤ y then x :: y :: ys else y :: insertSorted x ys

/-- Python `sorted` on a list of levels. -/
def sortNat (l : List Nat) : List Nat := l.foldr insertSorted []

/-- Python `needle in hay` on strings: substring containment. -/
def pyContainsSub (needle hay : List Nat) : Bool := decide (needle <:+: hay)

/-- `LoggerMixin.msgInLogs(level, msg, partial)`: raise
`AttributeError` when not attached; raise `KeyError` (carrying the
sorted levels that do have entries) when `level` is not a key of the
captured logs; otherwise report exact membership of `msg`, or — with
the partial flag — whether `msg` is a substring of any captured
message. -/
def msgInLogs (m : MixinState) (lvl : Level) (msg : List Nat)
    (part : Bool) : Except MixinError Bool :=
  match m.handler with
  | none =>
    .error (.attributeError
      (strCodes "Handler has not been attached. Must run <attach> first"))
  | some d =>
    let logs := d.logMessages
    match logs.lookup lvl with
    | none => .error (.keyError (sortNat (logs.map Prod.fst)))
    | some msgs =>
      if !part then .ok (msgs.contains msg)
      else .ok (msgs.any (fun message => pyContainsSub msg message))

/-! ## Helper lemmas: the strided slices -/

theorem sliceEvens_length {α : Type} (v : List α) :
    (sliceEvens v).length = (v.length + 1) / 2 := by
  induction v using sliceEvens.induct with
  | case1 => simp [sliceEvens]
  | case2 x => simp [sliceEvens]
  | case3 x y rest ih => simp only [sliceEvens, List.length_cons, ih]; omega

theorem sliceOdds_length {α : Type} (v : List α) :
    (sliceOdds v).length = v.length / 2 := by
  induction v using sliceOdds.induct with
  | case1 => simp [sliceOdds]
  | case2 x => simp [sliceOdds]
  | case3 x y rest ih => simp only [sliceOdds, List.length_cons, ih]; omega

theorem sliceEvens_getElem {α : Type} (v : List α) (i : Nat)
    (h1 : i < (sliceEvens v).length) (h2 : 2 * i < v.length) :
    (sliceEvens v)[i] = v[2 * i] := by
  induction v using sliceEvens.induct generalizing i with
  | case1 => simp at h2
  | case2 x =>
    have hz : i = 0 := by
      rw [sliceEvens_length] at h1; simp at h1; omega
    subst hz; rfl
  | case3 x y rest ih =>
    match i with
    | 0 => rfl
    | i + 1 =>
      have e : 2 * (i + 1) = 2 * i + 1 + 1 := by omega
      have hrest : 2 * i < rest.length := by
        simp only [List.length_cons] at h2; omega
      have h1r : i < (sliceEvens rest).length := by
        rw [sliceEvens_length] at h1 ⊢
        simp only [List.length_cons] at h1; omega
      simp only [sliceEvens, List.getElem_cons_succ, e]
      exact ih i h1r hrest

theorem sliceOdds_getElem {α : Type} (v : List α) (i : Nat)
    (h1 : i < (sliceOdds v).length) (h2 : 2 * i + 1 < v.length) :
    (sliceOdds v)[i] = v[2 * i + 1] := by
  induction v using sliceOdds.induct generalizing i with
  | case1 => simp at h2
  | case2 x =>
    rw [sliceOdds_length] at h1
    simp only [List.length_singleton] at h1; omega
  | case3 x y rest ih =>
    match i with
    | 0 => rfl
    | i + 1 =>
      have e : 2 * (i + 1) + 1 = 2 * i + 1 + 1 + 1 := by omega
      have hrest : 2 * i + 1 < rest.length := by
        simp only [List.length_cons] at h2; omega
      have h1r : i < (sliceOdds rest).length := by
        rw [sliceOdds_length] at h1 ⊢
        simp only [List.length_cons] at h1; omega
      simp only [sliceOdds, List.getElem_cons_succ, e]
      exact ih i h1r hrest

theorem sliceEvens_eq_nil_iff {α : Type} (v : List α) :
    sliceEvens v = [] ↔ v = [] := by
  induction v using sliceEvens.induct with
  | case1 => simp [sliceEvens]
  | case2 x => simp [sliceEvens]
  | case3 x y rest ih => simp [sliceEvens]

theorem sliceEvens_getLast? {α : Type} (v : List α) (h : v.length % 2 = 1) :
    (sliceEvens v).getLast? = v.getLast? := by
  induction v using sliceEvens.induct with
  | case1 => simp at h
  | case2 x => rfl
  | case3 x y rest ih =>
    have hr : rest.length % 2 = 1 := by simp at h; omega
    have hrn : rest ≠ [] := by
      intro hnil; rw [hnil] at hr; simp at hr
    have hsn : sliceEvens rest ≠ [] := by
      simpa [Ne, sliceEvens_eq_nil_iff] using hrn
    show (x :: sliceEvens rest).getLast? = (x :: y :: rest).getLast?
    obtain ⟨z, zs, hz⟩ : ∃ z zs, sliceEvens rest = z :: zs := by
      cases hse : sliceEvens rest with
      | nil => exact absurd hse hsn
      | cons z zs => exact ⟨z, zs, rfl⟩
    rw [hz, List.getLast?_cons_cons, ← hz, List.getLast?_cons_cons]
    obtain ⟨w, ws, hw⟩ : ∃ w ws, rest = w :: ws := by
      cases rest with
      | nil => exact absurd rfl hrn
      | cons w ws => exact ⟨w, ws, rfl⟩
    rw [hw, List.getLast?_cons_cons, ← hw]
    exact ih hr

/-! ## Claim C5 -/

/-- C5: for every even-length one-dimensional sequence `v` (the empty
sequence included) and either value of `copy`, `splitValsUncs(v)` is
exactly `(v[0::2], v[1::2])`: both outputs have length `len(v)//2`,
the i-th value is `v[2i]`, the i-th uncertainty is `v[2i+1]`, and the
empty input yields two empty outputs. -/
theorem splitValsUncs_even_spec {α : Type} (v : List α) (copy : Bool)
    (h : v.length % 2 = 0) :
    (splitValsUncs v copy).1.length = v.length / 2 ∧
    (splitValsUncs v copy).2.length = v.length / 2 ∧
    (∀ (i : Nat) (h1 : i < (splitValsUncs v copy).1.length)
        (h2 : 2 * i < v.length), (splitValsUncs v copy).1[i] = v[2 * i]) ∧
    (∀ (i : Nat) (h1 : i < (splitValsUncs v copy).2.length)
        (h2 : 2 * i + 1 < v.length), (splitValsUncs v copy).2[i] = v[2 * i + 1]) ∧
    (v = [] → splitValsUncs v copy = ([], [])) := by
  refine ⟨?_, ?_, ?_, ?_, ?_⟩
  · rw [show (splitValsUncs v copy).1 = sliceEvens v from rfl, sliceEvens_length]
    omega
  · rw [show (splitValsUncs v copy).2 = sliceOdds v from rfl, sliceOdds_length]
  · exact fun i h1 h2 => sliceEvens_getElem v i h1 h2
  · exact fun i h1 h2 => sliceOdds_getElem v i h1 h2
  · intro hv; subst hv; rfl

/-- Witness for C5 at the concrete even-length input `[1, 2, 3, 4]`. -/
theorem splitValsUncs_even_spec_witness :
    ([1, 2, 3, 4] : List Nat).length % 2 = 0 ∧
    (splitValsUncs ([1, 2, 3, 4] : List Nat) false).1.length = 2 ∧
    (splitValsUncs ([1, 2, 3, 4] : List Nat) false).2.length = 2 :=
  ⟨by decide,
   (splitValsUncs_even_spec ([1, 2, 3, 4] : List Nat) false (by decide)).1,
   (splitValsUncs_even_spec ([1, 2, 3, 4] : List Nat) false (by decide)).2.1⟩

/-! ## Claim C2

The code does NOT drop the trailing unpaired element of an odd-length
input: numpy's `v[0::2]` keeps it as the final entry of the values
array, so the two outputs have unequal lengths `(len(v)+1)//2` and
`len(v)//2`. -/

/-- C2 counterexample: for the odd-length input `[1, 2, 3]` the claim's
consequence fails: `splitValsUncs` returns `([1, 3], [2])`, the values
keep the trailing element `3`, the two outputs do not have equal
length, and the values' length is not `len(v)//2 = 1`. -/
theorem splitValsUncs_odd_counterexample :
    splitValsUncs ([1, 2, 3] : List Nat) false = ([1, 3], [2]) ∧
    ¬((splitValsUncs ([1, 2, 3] : List Nat) false).1.length = 3 / 2 ∧
      (splitValsUncs ([1, 2, 3] : List Nat) false).2.length = 3 / 2) := by
  decide

/-- C2 amended: for every odd-length sequence `v`, the trailing
unpaired element is dropped only from the uncertainties: the values
sequence `v[0::2]` has length `(len(v)+1)//2` and ends with `v`'s last
element, while the uncertainties sequence `v[1::2]` has length
`len(v)//2`. -/
theorem splitValsUncs_odd_spec {α : Type} (v : List α) (copy : Bool)
    (h : v.length % 2 = 1) :
    (splitValsUncs v copy).1.length = (v.length + 1) / 2 ∧
    (splitValsUncs v copy).2.length = v.length / 2 ∧
    (splitValsUncs v copy).1.getLast? = v.getLast? := by
  exact ⟨sliceEvens_length v, sliceOdds_length v, sliceEvens_getLast? v h⟩

/-- Witness for C2's amended statement at the odd-length input `[1, 2, 3]`. -/
theorem splitValsUncs_odd_spec_witness :
    ([1, 2, 3] : List Nat).length % 2 = 1 ∧
    (splitValsUncs ([1, 2, 3] : List Nat) true).1.length = 2 ∧
    (splitValsUncs ([1, 2, 3] : List Nat) true).1.getLast? = some 3 :=
  ⟨by decide,
   (splitValsUncs_odd_spec ([1, 2, 3] : List Nat) true (by decide)).1,
   (splitValsUncs_odd_spec ([1, 2, 3] : List Nat) true (by decide)).2.2⟩

/-! ## Helper lemmas: elementwise token conversion -/

theorem convertTokens_isSome {α : Type} (conv : List Nat → Option α)
    (ts : List (List Nat)) (h : ∀ t ∈ ts, (conv t).isSome = true) :
    (convertTokens conv ts).isSome = true := by
  induction ts with
  | nil => rfl
  | cons t ts ih =>
    have ht := h t (List.mem_cons_self t ts)
    obtain ⟨x, hx⟩ := Option.isSome_iff_exists.mp ht
    have hts := ih (fun u hu => h u (List.mem_cons_of_mem t hu))
    obtain ⟨xs, hxs⟩ := Option.isSome_iff_exists.mp hts
    simp [convertTokens, hx, hxs]

theorem convertTokens_some_spec {α : Type} (conv : List Nat → Option α)
    (ts : List (List Nat)) (l : List α) (h : convertTokens conv ts = some l) :
    l.length = ts.length ∧
    ∀ (i : Nat) (h1 : i < ts.length) (h2 : i < l.length),
      conv ts[i] = some l[i] := by
  induction ts generalizing l with
  | nil =>
    simp only [convertTokens, Option.some.injEq] at h
    subst h
    exact ⟨rfl, fun i h1 h2 => absurd h1 (by simp)⟩
  | cons t ts ih =>
    simp only [convertTokens] at h
    cases hc : conv t with
    | none => rw [hc] at h; exact absurd h (by simp)
    | some x =>
      rw [hc] at h
      cases hr : convertTokens conv ts with
      | none => rw [hr] at h; exact absurd h (by simp)
      | some xs =>
        rw [hr] at h
        simp only [Option.some.injEq] at h
        subst h
        obtain ⟨hlen, hget⟩ := ih xs hr
        refine ⟨by simp [hlen], fun i h1 h2 => ?_⟩
        match i with
        | 0 => simpa using hc
        | i + 1 =>
          simp only [List.getElem_cons_succ]
          exact hget i (by simpa using h1) (by simpa using h2)

theorem convertTokens_none {α : Type} (conv : List Nat → Option α)
    (ts : List (List Nat)) (t : List Nat) (hmem : t ∈ ts)
    (hc : conv t = none) : convertTokens conv ts = none := by
  induction ts with
  | nil => exact absurd hmem (by simp)
  | cons u ts ih =>
    rcases List.mem_cons.mp hmem with hu | hu
    · subst hu; simp [convertTokens, hc]
    · simp only [convertTokens]
      cases hcu : conv u with
      | none => rfl
      | some x => rw [ih hu]

/-! ## Claim C4 -/

/-- C4: for every string `s` and dtype conversion `conv`, if every
whitespace-delimited token of `s` coerces, then `str2vec(s, dtype)`
succeeds with a sequence whose length is the token count of `s` and
whose i-th element is the converted i-th token; if any token fails to
coerce, `str2vec` fails with the conversion error. -/
theorem str2vec_spec {α : Type} (s : List Nat) (conv : List Nat → Option α) :
    ((∀ t ∈ pySplit s, (conv t).isSome = true) →
      (str2vec s conv).isSome = true ∧
      ∀ l, str2vec s conv = some l →
        l.length = (pySplit s).length ∧
        ∀ (i : Nat) (h1 : i < (pySplit s).length) (h2 : i < l.length),
          conv (pySplit s)[i] = some l[i]) ∧
    ((∃ t ∈ pySplit s, conv t = none) → str2vec s conv = none) := by
  constructor
  · intro h
    exact ⟨convertTokens_isSome conv (pySplit s) h,
           fun l hl => convertTokens_some_spec conv (pySplit s) l hl⟩
  · rintro ⟨t, hmem, hc⟩
    exact convertTokens_none conv (pySplit s) t hmem hc

/-- Witness for C4: `"1 2"` parses to `[1, 2]` (two tokens, each
converted), while `"1 a"` fails because the token `"a"` does not
coerce. -/
theorem str2vec_spec_witness :
    (str2vec (strCodes "1 2") convDigits).isSome = true ∧
    str2vec (strCodes "1 a") convDigits = none :=
  ⟨((str2vec_spec (strCodes "1 2") convDigits).1 (by decide)).1,
   (str2vec_spec (strCodes "1 a") convDigits).2 ⟨strCodes "a", by decide, by decide⟩⟩

/-! ## Claim C3

The docstring of `str2vec` promises that a whitespace-free string is
returned as a one-element sequence holding the raw token, "avoiding
conversion with dtype".  The body is unconditionally
`array(s.split(), dtype=dtype)`, which converts the single token and
raises when it does not coerce: the code contradicts its own
documentation. -/

/-- C3: at the whitespace-free input `"abc"` the split yields the
single raw token, yet `str2vec` applies the dtype conversion to it
and fails, instead of returning the token unconverted; at the
coercible whitespace-free input `"7"` the result is the converted
value, not the raw token. -/
theorem str2vec_single_token_converts :
    pySplit (strCodes "abc") = [strCodes "abc"] ∧
    str2vec (strCodes "abc") convDigits = none ∧
    str2vec (strCodes "7") convDigits = some [7] := by
  decide

/-! ## Helper lemmas: handler bookkeeping -/

theorem foldl_removeHandler_append (L M : List Nat) :
    L.foldl removeHandler (L ++ M) = M := by
  induction L generalizing M with
  | nil => rfl
  | cons x L ih =>
    show L.foldl removeHandler (removeHandler (x :: (L ++ M)) x) = M
    rw [show removeHandler (x :: (L ++ M)) x = L ++ M from
      List.erase_cons_head x (L ++ M)]
    exact ih M

theorem foldl_removeHandler_self (L : List Nat) :
    L.foldl removeHandler L = [] := by
  have h := foldl_removeHandler_append L []
  simpa using h

theorem foldl_addHandler (L M : List Nat) :
    L.foldl addHandler M = M ++ L := by
  induction L generalizing M with
  | nil => simp
  | cons x L ih =>
    show L.foldl addHandler (M ++ [x]) = M ++ x :: L
    rw [ih (M ++ [x])]
    simp

theorem attach_eq (m : MixinState) (lg : LoggerState) (lvl : Level) (hid : Nat) :
    attach m lg lvl hid =
      ({ old := lg.handlers,
         handler := some { level := lvl, hid := hid, logMessages := [] } },
       { handlers := [hid] }) := by
  simp [attach, addHandler, foldl_removeHandler_self]

/-! ## Claim C1 -/

/-- C1: from any mixin state and any logger handler list,
`attach(level)` remembers every current handler, removes them all, and
leaves the capturing handler as the logger's only handler; the
subsequent `detach()` removes it, restores exactly the remembered
handlers, clears the remembered state, and the logger's handler list
equals its list before `attach`. -/
theorem attach_detach_roundtrip (m : MixinState) (lg : LoggerState)
    (lvl : Level) (hid : Nat) :
    (attach m lg lvl hid).1.old = lg.handlers ∧
    (attach m lg lvl hid).2.handlers = [hid] ∧
    detach (attach m lg lvl hid).1 (attach m lg lvl hid).2 =
      Except.ok ({ old := [], handler := none }, lg) := by
  rw [attach_eq m lg lvl hid]
  refine ⟨rfl, rfl, ?_⟩
  show detach
      { old := lg.handlers, handler := some { level := lvl, hid := hid, logMessages := [] } }
      { handlers := [hid] } =
    Except.ok ({ old := [], handler := none }, lg)
  simp only [detach]
  rw [show removeHandler [hid] hid = ([] : List Nat) from List.erase_cons_head hid []]
  rw [foldl_addHandler lg.handlers []]
  rfl

/-! ## Claim C10 -/

/-- C10: `attach(level)` is total — called in any state, attached or
not, it succeeds; it creates a fresh capturing handler with empty
logs, overwrites the remembered list with the logger's current
handlers and the handler attribute with the new handler (so whatever
was remembered before is discarded, not restored), and leaves the
capturing handler as the only logger handler.  The result does not
depend on the prior mixin state at all. -/
theorem attach_total_overwrites (m : MixinState) (lg : LoggerState)
    (lvl : Level) (hid : Nat) :
    attach m lg lvl hid =
      ({ old := lg.handlers,
         handler := some { level := lvl, hid := hid, logMessages := [] } },
       { handlers := [hid] }) := by
  simp [attach, addHandler, foldl_removeHandler_self]

/-! ## Claim C7 -/

/-- C7: `detach()` and `msgInLogs(...)` called while not attached —
`msgInLogs` before any attach, or `detach` right after a `detach` —
raise an error of the same class (`AttributeError`) naming the missing
attach step. -/
theorem detached_calls_raise (m : MixinState) (lg : LoggerState)
    (hm : m.handler = none) :
    detach m lg =
      .error (.attributeError (strCodes "Handler not set. Possibly not attached.")) ∧
    (∀ (lvl : Level) (msg : List Nat) (part : Bool),
      msgInLogs m lvl msg part =
        .error (.attributeError
          (strCodes "Handler has not been attached. Must run <attach> first"))) ∧
    (∀ (m1 : MixinState) (lg1 : LoggerState) (m2 : MixinState) (lg2 : LoggerState),
      detach m1 lg1 = Except.ok (m2, lg2) →
      detach m2 lg2 =
        .error (.attributeError (strCodes "Handler not set. Possibly not attached."))) := by
  refine ⟨?_, ?_, ?_⟩
  · simp [detach, hm]
  · intro lvl msg part; simp [msgInLogs, hm]
  · intro m1 lg1 m2 lg2 h
    cases hm1 : m1.handler with
    | none => simp [detach, hm1] at h
    | some d =>
      simp only [detach, hm1, Except.ok.injEq, Prod.mk.injEq] at h
      obtain ⟨h1, -⟩ := h
      subst h1
      simp [detach]

/-- Witness for C7 at the concrete detached state `⟨[], none⟩`. -/
theorem detached_calls_raise_witness :
    detach { old := [], handler := none } { handlers := [3] } =
      .error (.attributeError (strCodes "Handler not set. Possibly not attached.")) ∧
    msgInLogs { old := [], handler := none } 30 (strCodes "x") false =
      .error (.attributeError
        (strCodes "Handler has not been attached. Must run <attach> first")) :=
  ⟨(detached_calls_raise { old := [], handler := none } { handlers := [3] } rfl).1,
   (detached_calls_raise { old := [], handler := none } { handlers := [3] } rfl).2.1
     30 (strCodes "x") false⟩

/-! ## Claim C6 -/

/-- C6: while attached, `msgInLogs(level, msg, partial)` raises a
`KeyError` carrying the sorted list of levels that do have captured
entries whenever `level` has none; otherwise it returns true exactly
when `msg` equals one of the captured messages at that level, or —
with the partial flag — exactly when `msg` is a substring of some
captured message at that level. -/
theorem msgInLogs_spec (m : MixinState) (d : DictHandler)
    (hm : m.handler = some d) (lvl : Level) (msg : List Nat) :
    (d.logMessages.lookup lvl = none →
      ∀ part, msgInLogs m lvl msg part =
        .error (.keyError (sortNat (d.logMessages.map Prod.fst)))) ∧
    (∀ msgs, d.logMessages.lookup lvl = some msgs →
      ((msgInLogs m lvl msg false = .ok true ↔ msg ∈ msgs) ∧
       (msgInLogs m lvl msg true = .ok true ↔ ∃ mm ∈ msgs, msg <:+: mm))) := by
  constructor
  · intro h part
    simp [msgInLogs, hm, h]
  · intro msgs h
    constructor
    · rw [show msgInLogs m lvl msg false = Except.ok (msgs.contains msg) from by
        simp [msgInLogs, hm, h]]
      simp only [Except.ok.injEq]
      exact List.elem_iff
    · rw [show msgInLogs m lvl msg true =
          Except.ok (msgs.any fun message => pyContainsSub msg message) from by
        simp [msgInLogs, hm, h]]
      simp only [Except.ok.injEq]
      rw [List.any_eq_true]
      constructor
      · rintro ⟨mm, hmem, hsub⟩
        exact ⟨mm, hmem, of_decide_eq_true hsub⟩
      · rintro ⟨mm, hmem, hsub⟩
        exact ⟨mm, hmem, decide_eq_true hsub⟩

/-- A concrete capturing handler for the C6 witness: one message
`"bad input"` captured at level 30. -/
def sampleHandler : DictHandler :=
  { level := 0, hid := 7, logMessages := [(30, [strCodes "bad input"])] }

/-- A concrete attached mixin state for the C6 witness. -/
def sampleAttached : MixinState := { old := [], handler := some sampleHandler }

/-- Witness for C6 at `sampleAttached`: level 20 raises the `KeyError`
carrying `[30]`, an exact query for `"bad input"` at level 30 returns
true, and a partial query for the fragment `"bad"` returns true. -/
theorem msgInLogs_spec_witness :
    msgInLogs sampleAttached 20 (strCodes "x") false =
      .error (.keyError [30]) ∧
    (msgInLogs sampleAttached 30 (strCodes "bad input") false = .ok true ↔
      strCodes "bad input" ∈ [strCodes "bad input"]) :=
  ⟨(msgInLogs_spec sampleAttached sampleHandler rfl 20 (strCodes "x")).1 rfl false,
   ((msgInLogs_spec sampleAttached sampleHandler rfl 30
      (strCodes "bad input")).2 [strCodes "bad input"] rfl).1⟩

/-! ## Helper lemmas: the naming-convention round trip -/

/-- The per-character contribution of `deconvertVariableName`. -/
def deconvChar (c : Nat) : List Nat :=
  if isUpperChar c then [underscore, c] else [pyUpperChar c]

theorem deconv_foldl_general (v : List Nat) (acc : List Nat) :
    v.foldl
      (fun out c =>
        if isUpperChar c then out ++ [underscore, c] else out ++ [pyUpperChar c])
      acc = acc ++ (v.map deconvChar).flatten := by
  induction v generalizing acc with
  | nil => simp
  | cons c cs ih =>
    simp only [List.foldl_cons, List.map_cons, List.flatten_cons]
    rw [ih]
    by_cases hc : isUpperChar c
    · simp [deconvChar, hc, List.append_assoc]
    · simp [deconvChar, hc, List.append_assoc]

theorem deconv_eq_flatten (v : List Nat) :
    deconvertVariableName v = (v.map deconvChar).flatten := by
  unfold deconvertVariableName
  rw [deconv_foldl_general]
  simp

theorem upper_lower_upper (c : Nat) (h : isUpperChar c = true) :
    pyUpperChar (pyLowerChar c) = c := by
  have h' : 65 ≤ c ∧ c ≤ 90 := of_decide_eq_true h
  simp only [pyLowerChar, pyUpperChar]
  split_ifs <;> omega

theorem lower_not_upper (c : Nat) (h : isUpperChar c = true) :
    isUpperChar (pyLowerChar c) = false := by
  have h' : 65 ≤ c ∧ c ≤ 90 := of_decide_eq_true h
  have hl : pyLowerChar c = c + 32 := by simp [pyLowerChar, h']
  rw [hl]
  simp only [isUpperChar]
  exact decide_eq_false (by omega)

theorem lower_lower (c : Nat) (h : isUpperChar c = true) :
    pyLowerChar (pyLowerChar c) = pyLowerChar c := by
  have h' : 65 ≤ c ∧ c ≤ 90 := of_decide_eq_true h
  simp only [pyLowerChar]
  split_ifs <;> omega

theorem upper_ne_underscore (c : Nat) (h : isUpperChar c = true) :
    c ≠ underscore := by
  have h' : 65 ≤ c ∧ c ≤ 90 := of_decide_eq_true h
  simp only [underscore]
  omega

theorem deconvChar_lowered (c : Nat) (h : isUpperChar c = true) :
    deconvChar (pyLowerChar c) = [c] := by
  unfold deconvChar
  rw [lower_not_upper c h]
  simp [upper_lower_upper c h]

theorem deconv_chars_lowered (seg : List Nat)
    (h : ∀ c ∈ seg, isUpperChar c = true) :
    (((seg.map pyLowerChar).map deconvChar)).flatten = seg := by
  induction seg with
  | nil => rfl
  | cons c cs ih =>
    have hc := h c (List.mem_cons_self c cs)
    simp only [List.map_cons, List.flatten_cons]
    rw [deconvChar_lowered c hc,
        ih (fun x hx => h x (List.mem_cons_of_mem c hx))]
    rfl

theorem deconv_capitalized (c : Nat) (cs : List Nat)
    (hc : isUpperChar c = true) (hcs : ∀ x ∈ cs, isUpperChar x = true) :
    ((pyCapitalize (pyLowerChar c :: cs.map pyLowerChar)).map deconvChar).flatten =
      underscore :: c :: cs := by
  simp only [pyCapitalize]
  rw [upper_lower_upper c hc]
  rw [show (cs.map pyLowerChar).map pyLowerChar = cs.map pyLowerChar from by
    rw [List.map_map]
    exact List.map_congr_left (fun x hx => by
      simp only [Function.comp_apply]
      exact lower_lower x (hcs x hx))]
  simp only [List.map_cons, List.flatten_cons]
  rw [deconv_chars_lowered cs hcs]
  simp [deconvChar, hc]

theorem intercalate_underscore_eq (s1 : List Nat) (rest : List (List Nat)) :
    [underscore].intercalate (s1 :: rest) =
      s1 ++ (rest.map (fun seg => underscore :: seg)).flatten := by
  induction rest generalizing s1 with
  | nil => simp [List.intercalate]
  | cons r rs ih =>
    have lhs : [underscore].intercalate (s1 :: r :: rs)
        = s1 ++ underscore :: [underscore].intercalate (r :: rs) := by
      simp [List.intercalate, List.intersperse_cons_cons]
    rw [lhs, ih r]
    simp

theorem conv_of_upper_segs (s1 : List Nat) (rest : List (List Nat))
    (hx : ∀ l ∈ s1 :: rest, underscore ∉ l) :
    convertVariableName ([underscore].intercalate (s1 :: rest)) =
      s1.map pyLowerChar ++
        ((rest.map (fun seg => seg.map pyLowerChar)).map pyCapitalize).flatten := by
  unfold convertVariableName
  rw [List.splitOn_intercalate (s1 :: rest) underscore hx (by simp)]
  simp only [List.map_cons]

theorem deconv_cap_tail (rest : List (List Nat))
    (hr : ∀ seg ∈ rest, seg ≠ [] ∧ ∀ c ∈ seg, isUpperChar c = true) :
    ((((rest.map (fun seg => seg.map pyLowerChar)).map pyCapitalize).flatten).map
        deconvChar).flatten =
      (rest.map (fun seg => underscore :: seg)).flatten := by
  induction rest with
  | nil => rfl
  | cons r rs ih =>
    obtain ⟨hrne, hru⟩ := hr r (List.mem_cons_self r rs)
    cases r with
    | nil => exact absurd rfl hrne
    | cons c cs =>
      simp only [List.map_cons, List.flatten_cons, List.map_append,
        List.flatten_append]
      rw [deconv_capitalized c cs (hru c (List.mem_cons_self c cs))
            (fun x hx => hru x (List.mem_cons_of_mem c hx)),
          ih (fun seg hseg => hr seg (List.mem_cons_of_mem (c :: cs) hseg))]

theorem deconv_conv_segs (s1 : List Nat) (rest : List (List Nat))
    (h1u : ∀ c ∈ s1, isUpperChar c = true)
    (hr : ∀ seg ∈ rest, seg ≠ [] ∧ ∀ c ∈ seg, isUpperChar c = true) :
    deconvertVariableName
        (convertVariableName ([underscore].intercalate (s1 :: rest))) =
      [underscore].intercalate (s1 :: rest) := by
  have hx : ∀ l ∈ s1 :: rest, underscore ∉ l := by
    intro l hl hu
    rcases List.mem_cons.mp hl with h | h
    · subst h; exact upper_ne_underscore underscore (h1u underscore hu) rfl
    · exact upper_ne_underscore underscore ((hr l h).2 underscore hu) rfl
  rw [conv_of_upper_segs s1 rest hx, deconv_eq_flatten,
      List.map_append, List.flatten_append,
      deconv_chars_lowered s1 h1u, deconv_cap_tail rest hr,
      intercalate_underscore_eq]

/-! ## Claim C8 -/

/-- C8: for every input string whose underscore-separated segments are
all non-empty and made of uppercase ASCII letters (such as
`"INF_KINF"`), `deconvertVariableName(convertVariableName(x))`
returns `x`. -/
theorem convert_deconvert_roundtrip (v : List Nat)
    (h : ∀ seg ∈ v.splitOn underscore,
      seg ≠ [] ∧ ∀ c ∈ seg, isUpperChar c = true) :
    deconvertVariableName (convertVariableName v) = v := by
  have hne : v.splitOn underscore ≠ [] := by
    have hp := List.splitOnP_ne_nil (fun c => c == underscore) v
    simpa [List.splitOn] using hp
  cases hs : v.splitOn underscore with
  | nil => exact absurd hs hne
  | cons s1 rest =>
    have hv : [underscore].intercalate (s1 :: rest) = v := by
      rw [← hs]; exact List.intercalate_splitOn v underscore
    rw [← hv]
    obtain ⟨-, h1u⟩ := h s1 (by rw [hs]; exact List.mem_cons_self s1 rest)
    exact deconv_conv_segs s1 rest h1u
      (fun seg hseg => h seg (by rw [hs]; exact List.mem_cons_of_mem s1 hseg))

/-- Witness for C8 at the concrete input `"INF_KINF"` (whose
underscore-separated segments are non-empty and all uppercase). -/
theorem convert_deconvert_roundtrip_witness :
    deconvertVariableName (convertVariableName (strCodes "INF_KINF")) =
      strCodes "INF_KINF" :=
  convert_deconvert_roundtrip (strCodes "INF_KINF") (by decide)

end SerpentTools
